import Mathlib

/-!
Shallow embedding of the runtime semantics of the `typesafe-guard` validator
core (src/validator.ts and src/helper.ts).

A validator in the source is a single-shot generator: invoked on an input it
either completes normally with a value (success) or yields a failure reason
(failure, terminal at the first yield since the driver never resumes).  That
protocol is embedded as `GenStep`: `completes v` models a normal return and
`yields e` models the first (terminal) yield.  `yield*` delegation is the
evident bind on `GenStep`.

JavaScript values are modelled by the inductive `JSValue`.  Numbers keep
the distinctions strict equality can observe (`NaN`, `-0`, other values);
object identity is not tracked, so strict equality on two object operands is
modelled as `false` (independently constructed references); prototype chains
are not modelled, so the `in` operator coincides with own-key lookup.
-/

namespace TypesafeGuard

/-- JS numbers, keeping exactly the structure strict equality observes:
`NaN` (never equal to anything), `-0` (strictly equal to `+0`), and
other numeric values represented exactly. -/
inductive JSNumber where
  | nan
  | negZero
  | intVal (n : Int)
deriving DecidableEq, Repr

/-- Strict equality (`===`) on numbers: `NaN !== NaN`, `-0 === 0`. -/
def numStrictEq : JSNumber → JSNumber → Bool
  | .nan, _ => false
  | _, .nan => false
  | .negZero, .negZero => true
  | .negZero, .intVal n => n == 0
  | .intVal n, .negZero => n == 0
  | .intVal a, .intVal b => a == b

/-- Runtime property keys (`RealPropertyKey` in the source): strings or
symbols (symbols identified by a numeric id). -/
inductive JSKey where
  | str (s : String)
  | sym (id : Nat)
deriving DecidableEq, Repr

/-- `key.toString()` as used when source code stringifies keys in messages. -/
def keyToString : JSKey → String
  | .str s => s
  | .sym id => "Symbol(" ++ toString id ++ ")"

/-- JavaScript runtime values.  Objects carry their ordered own-property
list; arrays keep their elements; functions carry a reference id only. -/
inductive JSValue where
  | vNull
  | vUndefined
  | vBool (b : Bool)
  | vNum (n : JSNumber)
  | vStr (s : String)
  | vBigInt (i : Int)
  | vSym (id : Nat)
  | vFunc (id : Nat)
  | vArr (elems : List JSValue)
  | vObj (props : List (JSKey × JSValue))

/-- The `typeof` operator. -/
def typeofStr : JSValue → String
  | .vNull => "object"
  | .vUndefined => "undefined"
  | .vBool _ => "boolean"
  | .vNum _ => "number"
  | .vStr _ => "string"
  | .vBigInt _ => "bigint"
  | .vSym _ => "symbol"
  | .vFunc _ => "function"
  | .vArr _ => "object"
  | .vObj _ => "object"

/-- Strict equality (`===`).  Primitives compare by value with the JS rules
for `NaN` and `-0`; two object/array operands compare as `false`, modelling
independently constructed references (identity is not tracked). -/
def jsStrictEq : JSValue → JSValue → Bool
  | .vNull, .vNull => true
  | .vUndefined, .vUndefined => true
  | .vBool a, .vBool b => a == b
  | .vNum a, .vNum b => numStrictEq a b
  | .vStr a, .vStr b => a == b
  | .vBigInt a, .vBigInt b => a == b
  | .vSym a, .vSym b => a == b
  | .vFunc a, .vFunc b => a == b
  | _, _ => false

/-- `Array.isArray`. -/
def isArray : JSValue → Bool
  | .vArr _ => true
  | _ => false

/-- Failure reasons form a tree: leaf messages, `wrapError`-style
`[message, cause]` pairs, and `or`-style `[message, [causes]]` pairs. -/
inductive Reason where
  | msg (m : String)
  | withCause (m : String) (cause : Reason)
  | aggregate (m : String) (causes : List Reason)

/-- One observed step of a validator generator: the generator either
completes normally with a value or yields a failure reason (terminal:
the driver never resumes after a yield). -/
inductive GenStep (E : Type) (T : Type) where
  | yields (reason : E)
  | completes (value : T)

/-- `yield*` delegation: a yielded reason propagates, a completed value
feeds the continuation. -/
def genBind : GenStep E α → (α → GenStep E β) → GenStep E β
  | .yields e, _ => .yields e
  | .completes v, f => f v

/-- An intermediate validator (`IntermediateValidator<T, Reason, Req>`):
a function from the input to a single-shot generator step. -/
def IV (Req T : Type) := Req → GenStep Reason T

/-- Validation results (`Result<T, E>` in the source). -/
inductive Result (T : Type) (E : Type) where
  | ok (value : T)
  | fail (reason : E)

/-- The `ok` discriminant of a result. -/
def Result.isOk : Result T E → Bool
  | .ok _ => true
  | .fail _ => false

/-- The driver `validate(x, iv)`: run the generator one step
(`iv(x).next()`); if it is done, wrap the returned value in `ok`,
otherwise wrap the yielded reason in `fail`. -/
def validate (x : Req) (iv : IV Req T) : Result T Reason :=
  match iv x with
  | .completes v => .ok v
  | .yields e => .fail e

/-- `wrapError(iv, error)`: run the inner validator; on failure yield
`[error, innerReason]`, on success return the inner value. -/
def wrapError (iv : IV Req T) (error : String) : IV Req T := fun x =>
  match validate x iv with
  | .fail r => .yields (.withCause error r)
  | .ok v => .completes v

/-- The `string` primitive validator. -/
def string : IV JSValue JSValue := fun x =>
  if typeofStr x != "string" then .yields (.msg "The value is not a string.")
  else .completes x

/-- The `number` primitive validator. -/
def number : IV JSValue JSValue := fun x =>
  if typeofStr x != "number" then .yields (.msg "The value is not a number.")
  else .completes x

/-- The `boolean` primitive validator. -/
def boolean : IV JSValue JSValue := fun x =>
  if typeofStr x != "boolean" then .yields (.msg "The value is not a boolean.")
  else .completes x

/-- The `object` primitive validator: non-null objects and functions. -/
def object : IV JSValue JSValue := fun x =>
  if (typeofStr x == "object" && !(x matches .vNull)) || typeofStr x == "function"
  then .completes x
  else .yields (.msg "The value is not an object.")

/-- `equal(value)`: succeeds iff the input is strictly equal to the
captured constant. -/
def equal (value : JSValue) : IV JSValue JSValue := fun x =>
  if !(jsStrictEq x value) then .yields (.msg "The values are not equal.")
  else .completes x

/-- The summary message `or` puts on its aggregate failure. -/
def orFailMsg : String := "The value did not pass any of the given validators."

/-- The loop body of `or`: try each validator on `x` in order, returning
`x` at the first success and accumulating each failure reason; when the
list is exhausted, yield the aggregate `[message, errs]` reason. -/
def orGo (x : JSValue) : List (IV JSValue JSValue) → List Reason → GenStep Reason JSValue
  | [], errs => .yields (.aggregate orFailMsg errs)
  | iv :: rest, errs =>
    match validate x iv with
    | .ok _ => .completes x
    | .fail r => orGo x rest (errs ++ [r])

/-- `or(...ivs)`: the value passes any of the given validators. -/
def or (ivs : List (IV JSValue JSValue)) : IV JSValue JSValue := fun x =>
  orGo x ivs []

/-- The summary message `and` wraps each branch failure with. -/
def andFailMsg : String := "The value did not pass all of the given validators."

/-- The loop body of `and`: `yield* wrapError(iv, msg)(x)` for each
validator in order, then return `x`. -/
def andGo (x : JSValue) : List (IV JSValue JSValue) → GenStep Reason JSValue
  | [] => .completes x
  | iv :: rest => genBind (wrapError iv andFailMsg x) (fun _ => andGo x rest)

/-- `and(...ivs)`: the value passes all of the given validators; the
returned value is the original input. -/
def and (ivs : List (IV JSValue JSValue)) : IV JSValue JSValue := fun x =>
  andGo x ivs

/-- The `array` primitive validator (`arrayUnsafe` has the same runtime
behavior; the two differ only in their static target type). -/
def array : IV JSValue JSValue := fun x =>
  if !(isArray x) then .yields (.msg "The value is not an array.")
  else .completes x

/-- The per-index message used by `arrayOf` and `tuple`. -/
def elemFailMsg (idx : Nat) : String :=
  "There is an element that did not pass the given validator at index " ++ toString idx ++ "."

/-- The element loop of `arrayOf`: wrap the element validator with the
index message and run it on each element in order. -/
def arrayOfGo (iv : IV JSValue JSValue) : List JSValue → Nat → GenStep Reason Unit
  | [], _ => .completes ()
  | e :: rest, idx =>
    genBind (wrapError iv (elemFailMsg idx) e) (fun _ => arrayOfGo iv rest (idx + 1))

/-- `arrayOf(iv)`: the value is an array whose every element passes `iv`;
on success the very array that was given is returned. -/
def arrayOf (iv : IV JSValue JSValue) : IV JSValue JSValue := fun x =>
  match x with
  | .vArr elems =>
    genBind (arrayOfGo iv elems 0) (fun _ => .completes (JSValue.vArr elems))
  | _ => .yields (.msg "The value is not an array.")

/-- The arity-mismatch message of `tuple`. -/
def lengthFailMsg (expected actual : Nat) : String :=
  "The array has unexpected length. Expected: " ++ toString expected
    ++ " Actual: " ++ toString actual

/-- The element loop of `tuple`: element `i` must pass validator `i`
(the lists are zipped; the arity check has made them the same length). -/
def tupleGo : List (IV JSValue JSValue × JSValue) → Nat → GenStep Reason Unit
  | [], _ => .completes ()
  | (iv, e) :: rest, idx =>
    genBind (wrapError iv (elemFailMsg idx) e) (fun _ => tupleGo rest (idx + 1))

/-- `tuple(...ivs)`: the value is an array of exactly `ivs.length`
elements and element `i` passes validator `i`. -/
def tuple (ivs : List (IV JSValue JSValue)) : IV JSValue JSValue := fun x =>
  match x with
  | .vArr elems =>
    if elems.length != ivs.length
    then .yields (.msg (lengthFailMsg ivs.length elems.length))
    else genBind (tupleGo (ivs.zip elems) 0) (fun _ => .completes (JSValue.vArr elems))
  | _ => .yields (.msg "The value is not an array.")

/-- `Reflect.ownKeys`: the ordered own keys of an object; for arrays these
are the element indices followed by `length`.  (Values that are not
object-like have no own keys in the model.) -/
def ownKeys : JSValue → List JSKey
  | .vObj props => props.map Prod.fst
  | .vArr elems =>
    ((List.range elems.length).map (fun i => JSKey.str (toString i))) ++ [JSKey.str "length"]
  | _ => []

/-- `Object.prototype.hasOwnProperty.call(x, k)`. -/
def hasOwn (x : JSValue) (k : JSKey) : Bool := (ownKeys x).contains k

/-- Property read `x[k]`. -/
def getProp (x : JSValue) (k : JSKey) : JSValue :=
  match x with
  | .vObj props =>
    (match props.lookup k with
     | some v => v
     | none => .vUndefined)
  | .vArr elems =>
    (match k with
     | .str s =>
       if s == "length" then .vNum (.intVal elems.length)
       else
         (match s.toNat? with
          | some i => elems.getD i .vUndefined
          | none => .vUndefined)
     | .sym _ => .vUndefined)
  | _ => .vUndefined

/-- `Object(x)` on a string primitive: a boxed object whose own keys are
the character indices and `length`. -/
def boxString (s : String) : JSValue :=
  .vObj
    ((((List.range s.length).zip s.toList).map
        (fun p => (JSKey.str (toString p.1), JSValue.vStr (String.singleton p.2))))
      ++ [(JSKey.str "length", JSValue.vNum (.intVal s.length))])

/-- The `Object(x)` coercion: object-like values are returned unchanged;
strings box to an indexed object; other primitives (and `null` /
`undefined`) box to an object with no own properties. -/
def jsObjectCoerce : JSValue → JSValue
  | .vStr s => boxString s
  | .vObj props => .vObj props
  | .vArr elems => .vArr elems
  | .vFunc id => .vFunc id
  | _ => .vObj []

/-- `KeyOfOptions`: whether the key must be an own property (default
`true`). -/
structure KeyOfOptions where
  own : Bool := true

/-- `strictKeyOf(obj, opts)`: the key is in the given object.  The model
has no prototype chains, so the non-`own` branch (the `in` operator) also
checks own keys. -/
def strictKeyOf (obj : JSValue) (opts : KeyOfOptions) : IV JSKey JSKey := fun key =>
  if opts.own then
    if !(hasOwn obj key)
    then .yields (.msg ("The given object does not contain own property \x27"
      ++ keyToString key ++ "\x27."))
    else .completes key
  else
    if !(hasOwn obj key)
    then .yields (.msg ("The given object does not contain property \x27"
      ++ keyToString key ++ "\x27."))
    else .completes key

/-- `PropOptions`: `KeyOfOptions` plus the option (named like the Lean
keyword for partiality in the source) making an absent key acceptable;
it defaults to `false` and is called `optional` here. -/
structure PropOptions extends KeyOfOptions where
  optional : Bool := false

/-- The wrapping message `strictProp` puts on a failing property value. -/
def propFailMsg (k : JSKey) : String :=
  "The value of property \x27" ++ keyToString k ++ "\x27 did not pass the given validator."

/-- `strictProp(key, valueIv, opts)`: the object carries the property at
`key` (trivial success if absent and the option is set) and its value
passes `valueIv` (failure wrapped with the property message); on success
the original object is returned. -/
def strictProp (key : JSKey) (valueIv : IV JSValue JSValue) (opts : PropOptions) :
    IV JSValue JSValue := fun obj =>
  match validate key (strictKeyOf obj opts.toKeyOfOptions) with
  | .fail r => if opts.optional then .completes obj else .yields r
  | .ok k =>
    genBind (wrapError valueIv (propFailMsg k) (getProp obj k)) (fun _ => .completes obj)

/-- `PropsOptions`: `PropOptions` plus `allowExtra` (default `true`). -/
structure PropsOptions extends PropOptions where
  allowExtra : Bool := true

/-- The bound on how many extra-key names are reported. -/
def EXTRA_ELLIPSIS_COUNT : Nat := 5

/-- The parts joined into the extra-keys report: at most
`EXTRA_ELLIPSIS_COUNT` stringified key names, then one truncation entry
when more keys remain. -/
def extraKeysParts (extraKeys : List JSKey) : List String :=
  (extraKeys.take EXTRA_ELLIPSIS_COUNT).map keyToString
    ++ (if EXTRA_ELLIPSIS_COUNT < extraKeys.length
        then ["... " ++ toString (extraKeys.length - EXTRA_ELLIPSIS_COUNT) ++ " more items"]
        else [])

/-- The extra-keys detail string (`[...].join(', ')` in the source). -/
def extraKeysDetails (extraKeys : List JSKey) : String :=
  String.intercalate ", " (extraKeysParts extraKeys)

/-- The per-definition loop of `strictProps`:
`yield* strictProp(key, defs[key], opts)(obj)` in definition order. -/
def strictPropsGo (defs : List (JSKey × IV JSValue JSValue)) (opts : PropOptions)
    (obj : JSValue) : GenStep Reason Unit :=
  match defs with
  | [] => .completes ()
  | (k, iv) :: rest =>
    genBind (strictProp k iv opts obj) (fun _ => strictPropsGo rest opts obj)

/-- `strictProps(defs, opts)`: every defined property passes its
validator; afterwards, when `allowExtra` is `false`, any own key not among
the definition keys is an error reported with the bounded detail string;
on success the original object is returned. -/
def strictProps (defs : List (JSKey × IV JSValue JSValue)) (opts : PropsOptions) :
    IV JSValue JSValue := fun obj =>
  genBind (strictPropsGo defs opts.toPropOptions obj) (fun _ =>
    let defKeys := defs.map Prod.fst
    let extraKeys := (ownKeys obj).filter (fun k => !(defKeys.contains k))
    if !opts.allowExtra && decide (0 < extraKeys.length)
    then .yields (.msg ("The object have extra properties: " ++ extraKeysDetails extraKeys))
    else .completes obj)

/-- `looseProp(key, valueIv, opts)`: run `strictProp` on the coerced
object `Object(x)`, then return the original (possibly primitive) input. -/
def looseProp (key : JSKey) (valueIv : IV JSValue JSValue) (opts : PropOptions) :
    IV JSValue JSValue := fun x =>
  genBind (strictProp key valueIv opts (jsObjectCoerce x)) (fun _ => .completes x)

/-! ## Theorems -/

/-- Claim C1: the driver `validate(x, iv)` runs the validator's computation
exactly one step: a step that yields a reason gives `Fail(reason)`, a step
that completes normally with a value gives `Ok(value)`, and for every
validator and input exactly one of the two outcomes is produced. -/
theorem validate_single_step {Req T : Type} (iv : IV Req T) (x : Req) :
    (∀ v, iv x = .completes v → validate x iv = .ok v) ∧
    (∀ e, iv x = .yields e → validate x iv = .fail e) ∧
    (((∃ v, validate x iv = .ok v) ∧ ¬ (∃ e, validate x iv = .fail e)) ∨
      ((∃ e, validate x iv = .fail e) ∧ ¬ (∃ v, validate x iv = .ok v))) := by
  refine ⟨?_, ?_, ?_⟩
  · intro v h
    simp [validate, h]
  · intro e h
    simp [validate, h]
  · cases h : iv x with
    | completes v =>
      left
      constructor
      · exact ⟨v, by simp [validate, h]⟩
      · rintro ⟨e, he⟩
        simp [validate, h] at he
    | yields e =>
      right
      constructor
      · exact ⟨e, by simp [validate, h]⟩
      · rintro ⟨v, hv⟩
        simp [validate, h] at hv

/-- Witness for C1 at the `object` validator on `null` (a failing step)
and on an empty object (a completing step). -/
theorem validate_single_step_witness :
    validate JSValue.vNull object = .fail (.msg "The value is not an object.") ∧
    validate (JSValue.vObj []) object = .ok (JSValue.vObj []) :=
  ⟨(validate_single_step object JSValue.vNull).2.1 _ rfl,
    (validate_single_step object (JSValue.vObj [])).1 _ rfl⟩

/-- Claim C7: validation is deterministic — running `validate` twice on
the same validator and equal inputs produces results with the same `ok`
flag and structurally equal contents (the embedding is a pure function of
the input). -/
theorem validate_deterministic {Req T : Type} (iv : IV Req T) (x y : Req) (h : x = y) :
    (validate x iv).isOk = (validate y iv).isOk ∧ validate x iv = validate y iv := by
  subst h
  exact ⟨rfl, rfl⟩

/-- Witness for C7 at the `string` validator on the string `"a"`. -/
theorem validate_deterministic_witness :
    (validate (JSValue.vStr "a") string).isOk = (validate (JSValue.vStr "a") string).isOk ∧
    validate (JSValue.vStr "a") string = validate (JSValue.vStr "a") string :=
  validate_deterministic string (JSValue.vStr "a") (JSValue.vStr "a") rfl

/-- Claim C9: `and` of zero validators succeeds on every input returning
that input; `or` of zero validators fails on every input with an aggregate
reason whose sub-reason list is empty. -/
theorem and_empty_or_empty :
    (∀ x, validate x (and []) = .ok x) ∧
    (∀ x, validate x (or []) = .fail (.aggregate orFailMsg [])) :=
  ⟨fun _ => rfl, fun _ => rfl⟩

/-- Claim C6: the `object` primitive succeeds exactly on non-null objects
and on functions, and otherwise fails with the fixed message. -/
theorem object_typeof_spec (x : JSValue) :
    (validate x object = .ok x ↔
      ((typeofStr x = "object" ∧ x ≠ .vNull) ∨ typeofStr x = "function")) ∧
    (¬ ((typeofStr x = "object" ∧ x ≠ .vNull) ∨ typeofStr x = "function") →
      validate x object = .fail (.msg "The value is not an object.")) := by
  cases x <;> simp [validate, object, typeofStr]

/-- Witness for C6 at a function value (succeeds) and at `null` and a
number (both fail with the fixed message). -/
theorem object_typeof_spec_witness :
    validate (JSValue.vFunc 0) object = .ok (JSValue.vFunc 0) ∧
    validate JSValue.vNull object = .fail (.msg "The value is not an object.") ∧
    validate (JSValue.vNum (.intVal 3)) object = .fail (.msg "The value is not an object.") :=
  ⟨(object_typeof_spec (JSValue.vFunc 0)).1.mpr (by simp [typeofStr]),
    (object_typeof_spec JSValue.vNull).2 (by simp [typeofStr]),
    (object_typeof_spec (JSValue.vNum (.intVal 3))).2 (by simp [typeofStr])⟩

/-- Claim C10: `equal(v)` compares with JS strict equality: it succeeds
exactly when the input is strictly equal to the captured constant; hence
`equal(NaN)` fails on every input (including `NaN`), and `equal(0)`
succeeds on `-0`. -/
theorem equal_strict_eq_spec :
    (∀ v x, (validate x (equal v)).isOk = jsStrictEq x v) ∧
    (∀ x, validate x (equal (.vNum .nan)) = .fail (.msg "The values are not equal.")) ∧
    validate (JSValue.vNum .negZero) (equal (.vNum (.intVal 0))) = .ok (.vNum .negZero) := by
  refine ⟨?_, ?_, rfl⟩
  · intro v x
    cases h : jsStrictEq x v <;> simp [validate, equal, h, Result.isOk]
  · intro x
    have h : jsStrictEq x (.vNum .nan) = false := by
      cases x with
      | vNum n => cases n <;> rfl
      | _ => rfl
    simp [validate, equal, h]

/-- If every validator in the list fails (with the reasons `rs`, matched
pointwise in order), the `or` loop yields the aggregate of the
accumulated reasons followed by `rs`. -/
theorem orGo_all_fail {x : JSValue} {ivs : List (IV JSValue JSValue)} {rs : List Reason}
    (h : List.Forall₂ (fun iv r => validate x iv = .fail r) ivs rs) :
    ∀ errs, orGo x ivs errs = .yields (.aggregate orFailMsg (errs ++ rs)) := by
  induction h with
  | nil => intro errs; simp [orGo]
  | cons h₁ _ ih =>
    intro errs
    simp only [orGo, h₁, ih]
    simp

/-- If the validators before `iv` all fail and `iv` succeeds, the `or`
loop completes with the input value, whatever comes after `iv`. -/
theorem orGo_first_success {x : JSValue} :
    ∀ (pre : List (IV JSValue JSValue)) (iv : IV JSValue JSValue) post errs,
    (∀ j ∈ pre, (validate x j).isOk = false) → (validate x iv).isOk = true →
    orGo x (pre ++ iv :: post) errs = .completes x := by
  intro pre
  induction pre with
  | nil =>
    intro iv post errs _ hok
    cases h : validate x iv with
    | ok v => simp [orGo, h]
    | fail r => rw [h] at hok; simp [Result.isOk] at hok
  | cons j rest ih =>
    intro iv post errs hpre hok
    cases h : validate x j with
    | ok v =>
      have := hpre j (by simp)
      rw [h] at this; simp [Result.isOk] at this
    | fail r =>
      simp only [List.cons_append, orGo, h]
      exact ih iv post (errs ++ [r]) (fun j hj => hpre j (by simp [hj])) hok

/-- The `or` loop completes exactly when some validator in the list
succeeds, and then the completed value is the input itself. -/
theorem orGo_completes_iff {x : JSValue} :
    ∀ (ivs : List (IV JSValue JSValue)) errs,
    ((∃ v, orGo x ivs errs = .completes v) ↔ ∃ iv ∈ ivs, (validate x iv).isOk = true) ∧
    (∀ v, orGo x ivs errs = .completes v → v = x) := by
  intro ivs
  induction ivs with
  | nil => intro errs; simp [orGo]
  | cons iv rest ih =>
    intro errs
    cases h : validate x iv with
    | ok v =>
      constructor
      · simp only [orGo, h]
        constructor
        · intro _; exact ⟨iv, by simp, by simp [h, Result.isOk]⟩
        · intro _; exact ⟨x, rfl⟩
      · intro w hw
        simp only [orGo, h] at hw
        cases hw; rfl
    | fail r =>
      constructor
      · simp only [orGo, h]
        rw [(ih (errs ++ [r])).1]
        constructor
        · rintro ⟨jv, hj, hjo⟩; exact ⟨jv, by simp [hj], hjo⟩
        · rintro ⟨jv, hj, hjo⟩
          rcases List.mem_cons.mp hj with rfl | hj'
          · rw [h] at hjo; simp [Result.isOk] at hjo
          · exact ⟨jv, hj', hjo⟩
      · intro w hw
        simp only [orGo, h] at hw
        exact (ih (errs ++ [r])).2 w hw

/-- Claim C2: `or(v1..vn)` tries the validators left to right and succeeds
(with the success produced at the first matching validator, carrying the
input value) as soon as one succeeds — first-match, not longest-match; it
fails iff every validator fails, and then its reason is the pair of the
summary message and the list of the per-validator sub-reasons, one per
failed branch, in the order the validators were given. -/
theorem or_first_match_spec :
    (∀ (pre : List (IV JSValue JSValue)) iv post x,
      (∀ j ∈ pre, (validate x j).isOk = false) → (validate x iv).isOk = true →
      validate x (or (pre ++ iv :: post)) = .ok x) ∧
    (∀ (ivs : List (IV JSValue JSValue)) x rs,
      List.Forall₂ (fun iv r => validate x iv = .fail r) ivs rs →
      validate x (or ivs) = .fail (.aggregate orFailMsg rs)) ∧
    (∀ (ivs : List (IV JSValue JSValue)) x,
      (validate x (or ivs)).isOk = true ↔ ∃ iv ∈ ivs, (validate x iv).isOk = true) := by
  refine ⟨?_, ?_, ?_⟩
  · intro pre iv post x hpre hok
    have h := orGo_first_success pre iv post [] hpre hok
    simp [validate, or, h]
  · intro ivs x rs h
    have h2 := orGo_all_fail h []
    simp only [List.nil_append] at h2
    simp [validate, or, h2]
  · intro ivs x
    have h := orGo_completes_iff (x := x) ivs []
    constructor
    · intro hok
      apply h.1.mp
      unfold validate or at hok
      cases hgo : orGo x ivs [] with
      | completes v => exact ⟨v, rfl⟩
      | yields e => rw [hgo] at hok; simp [Result.isOk] at hok
    · intro hex
      rcases h.1.mpr hex with ⟨v, hv⟩
      simp [validate, or, hv, Result.isOk]

/-- Witness for C2: `or(string, number)` on a number succeeds first-match
after the failing `string` branch; on a boolean it fails with one
sub-reason per branch in order. -/
theorem or_first_match_spec_witness :
    validate (JSValue.vNum (.intVal 1)) (or ([string] ++ number :: [])) = .ok (JSValue.vNum (.intVal 1)) ∧
    validate (JSValue.vBool true) (or [string, number]) =
      .fail (.aggregate orFailMsg
        [.msg "The value is not a string.", .msg "The value is not a number."]) :=
  ⟨or_first_match_spec.1 [string] number [] (JSValue.vNum (.intVal 1))
      (by intro j hj; rw [List.mem_singleton] at hj; subst hj; rfl) rfl,
    or_first_match_spec.2.1 [string, number] (JSValue.vBool true)
      [.msg "The value is not a string.", .msg "The value is not a number."]
      (by refine List.Forall₂.cons rfl (List.Forall₂.cons rfl List.Forall₂.nil))⟩

/-- The `and` loop completes exactly when every validator succeeds on the
input, and it always completes with the input itself. -/
theorem andGo_completes_iff {x : JSValue} :
    ∀ (ivs : List (IV JSValue JSValue)),
    ((∃ v, andGo x ivs = .completes v) ↔ ∀ iv ∈ ivs, (validate x iv).isOk = true) ∧
    (∀ v, andGo x ivs = .completes v → v = x) := by
  intro ivs
  induction ivs with
  | nil => simp [andGo]
  | cons iv rest ih =>
    cases h : validate x iv with
    | ok v =>
      constructor
      · simp only [andGo, wrapError, h, genBind]
        rw [ih.1]
        constructor
        · intro hall j hj
          rcases List.mem_cons.mp hj with rfl | hj'
          · simp [h, Result.isOk]
          · exact hall j hj'
        · intro hall j hj; exact hall j (by simp [hj])
      · intro w hw
        simp only [andGo, wrapError, h, genBind] at hw
        exact ih.2 w hw
    | fail r =>
      constructor
      · simp only [andGo, wrapError, h, genBind]
        constructor
        · rintro ⟨v, hv⟩; cases hv
        · intro hall
          have := hall iv (by simp)
          rw [h] at this; simp [Result.isOk] at this
      · intro w hw
        simp only [andGo, wrapError, h, genBind] at hw
        cases hw

/-- If the validators before `iv` all succeed and `iv` fails with `r`,
the `and` loop yields `r` wrapped under the shared summary message. -/
theorem andGo_first_fail {x : JSValue} :
    ∀ (pre : List (IV JSValue JSValue)) iv post r,
    (∀ j ∈ pre, (validate x j).isOk = true) → validate x iv = .fail r →
    andGo x (pre ++ iv :: post) = .yields (.withCause andFailMsg r) := by
  intro pre
  induction pre with
  | nil =>
    intro iv post r _ hf
    simp [andGo, wrapError, hf, genBind]
  | cons j rest ih =>
    intro iv post r hpre hf
    cases h : validate x j with
    | ok v =>
      simp only [List.cons_append, andGo, wrapError, h, genBind]
      exact ih iv post r (fun j hj => hpre j (by simp [hj])) hf
    | fail rr =>
      have := hpre j (by simp)
      rw [h] at this; simp [Result.isOk] at this

/-- Claim C3: `and(v1..vn)` runs the validators in order on the same
input; it succeeds exactly when all succeed, returning the original input
value itself; it fails at the first failing validator, wrapping that
validator's reason under the shared summary message as a
(message, cause) pair. -/
theorem and_all_pass_spec :
    (∀ (ivs : List (IV JSValue JSValue)) x,
      validate x (and ivs) = .ok x ↔ ∀ iv ∈ ivs, (validate x iv).isOk = true) ∧
    (∀ (ivs : List (IV JSValue JSValue)) x v,
      validate x (and ivs) = .ok v → v = x) ∧
    (∀ (pre : List (IV JSValue JSValue)) iv post x r,
      (∀ j ∈ pre, (validate x j).isOk = true) → validate x iv = .fail r →
      validate x (and (pre ++ iv :: post)) = .fail (.withCause andFailMsg r)) := by
  refine ⟨?_, ?_, ?_⟩
  · intro ivs x
    constructor
    · intro hok
      apply (andGo_completes_iff ivs).1.mp
      unfold validate and at hok
      cases hgo : andGo x ivs with
      | completes v => exact ⟨v, rfl⟩
      | yields e => rw [hgo] at hok; cases hok
    · intro hall
      rcases (andGo_completes_iff ivs).1.mpr hall with ⟨v, hv⟩
      have hvx := (andGo_completes_iff ivs).2 v hv
      subst hvx
      simp [validate, and, hv]
  · intro ivs x v hok
    unfold validate and at hok
    cases hgo : andGo x ivs with
    | completes w =>
      rw [hgo] at hok
      cases hok
      exact (andGo_completes_iff ivs).2 _ hgo
    | yields e => rw [hgo] at hok; cases hok
  · intro pre iv post x r hpre hf
    have h := andGo_first_fail pre iv post r hpre hf
    simp [validate, and, h]

/-- Witness for C3: `and(boolean, string)` on `true` passes `boolean`
then fails on `string` with the wrapped reason; `and(boolean)` on `true`
succeeds with the original input. -/
theorem and_all_pass_spec_witness :
    validate (JSValue.vBool true) (and ([boolean] ++ string :: [])) =
      .fail (.withCause andFailMsg (.msg "The value is not a string.")) ∧
    validate (JSValue.vBool true) (and [boolean]) = .ok (JSValue.vBool true) :=
  ⟨and_all_pass_spec.2.2 [boolean] string [] (JSValue.vBool true)
      (.msg "The value is not a string.")
      (by intro j hj; rw [List.mem_singleton] at hj; subst hj; rfl) rfl,
    (and_all_pass_spec.1 [boolean] (JSValue.vBool true)).mpr
      (by intro j hj; rw [List.mem_singleton] at hj; subst hj; rfl)⟩

/-- The `tuple` element loop completes exactly when every element passes
its paired validator. -/
theorem tupleGo_completes_iff :
    ∀ (pairs : List (IV JSValue JSValue × JSValue)) idx,
    (tupleGo pairs idx = .completes ()) ↔ ∀ p ∈ pairs, (validate p.2 p.1).isOk = true := by
  intro pairs
  induction pairs with
  | nil => intro idx; simp [tupleGo]
  | cons p rest ih =>
    intro idx
    obtain ⟨iv, e⟩ := p
    cases h : validate e iv with
    | ok v =>
      simp only [tupleGo, wrapError, h, genBind]
      rw [ih (idx + 1)]
      constructor
      · intro hall q hq
        rcases List.mem_cons.mp hq with rfl | hq'
        · simp [h, Result.isOk]
        · exact hall q hq'
      · intro hall q hq; exact hall q (by simp [hq])
    | fail r =>
      simp only [tupleGo, wrapError, h, genBind]
      constructor
      · intro hv; cases hv
      · intro hall
        have := hall (iv, e) (by simp)
        rw [h] at this; simp [Result.isOk] at this

/-- Every failure of the `tuple` element loop is a wrapped
(index-message, cause) pair. -/
theorem tupleGo_fail_shape :
    ∀ (pairs : List (IV JSValue JSValue × JSValue)) idx r,
    tupleGo pairs idx = .yields r → ∃ i c, r = .withCause (elemFailMsg i) c := by
  intro pairs
  induction pairs with
  | nil => intro idx r h; cases h
  | cons p rest ih =>
    intro idx r h
    obtain ⟨iv, e⟩ := p
    cases hv : validate e iv with
    | ok v =>
      simp only [tupleGo, wrapError, hv, genBind] at h
      exact ih (idx + 1) r h
    | fail rr =>
      simp only [tupleGo, wrapError, hv, genBind] at h
      cases h
      exact ⟨idx, rr, rfl⟩

/-- Claim C4: `tuple(v1..vn)` fails on every non-array input; it fails on
every array whose length differs from `n` — regardless of the elements —
with an arity-mismatch reason that is distinct in shape from an
element-validation failure; and on arrays of length `n` it succeeds
exactly when each element passes its validator, element failures being
wrapped (index-message, cause) pairs. -/
theorem tuple_arity_spec :
    (∀ (ivs : List (IV JSValue JSValue)) x, isArray x = false →
      validate x (tuple ivs) = .fail (.msg "The value is not an array.")) ∧
    (∀ (ivs : List (IV JSValue JSValue)) elems, elems.length ≠ ivs.length →
      validate (.vArr elems) (tuple ivs) = .fail (.msg (lengthFailMsg ivs.length elems.length))) ∧
    (∀ (ivs : List (IV JSValue JSValue)) elems,
      (validate (.vArr elems) (tuple ivs)).isOk = true ↔
        (elems.length = ivs.length ∧ ∀ p ∈ ivs.zip elems, (validate p.2 p.1).isOk = true)) ∧
    (∀ n m s c, Reason.msg (lengthFailMsg n m) ≠ Reason.withCause s c) ∧
    (∀ (ivs : List (IV JSValue JSValue)) elems r, elems.length = ivs.length →
      validate (.vArr elems) (tuple ivs) = .fail r →
      ∃ i c, r = .withCause (elemFailMsg i) c) := by
  refine ⟨?_, ?_, ?_, ?_, ?_⟩
  · intro ivs x h
    cases x <;> simp [isArray] at h ⊢ <;> rfl
  · intro ivs elems h
    simp [validate, tuple, h]
  · intro ivs elems
    by_cases h : elems.length = ivs.length
    · cases hgo : tupleGo (ivs.zip elems) 0 with
      | completes u =>
        cases u
        have hres : validate (JSValue.vArr elems) (tuple ivs) = .ok (.vArr elems) := by
          simp [validate, tuple, h, hgo, genBind]
        rw [hres]
        simp only [Result.isOk]
        constructor
        · intro _
          exact ⟨h, (tupleGo_completes_iff (ivs.zip elems) 0).mp hgo⟩
        · intro _; trivial
      | yields r =>
        have hres : validate (JSValue.vArr elems) (tuple ivs) = .fail r := by
          simp [validate, tuple, h, hgo, genBind]
        rw [hres]
        simp only [Result.isOk]
        constructor
        · intro hf; exact absurd hf (by simp)
        · rintro ⟨-, hall⟩
          exfalso
          have hc := (tupleGo_completes_iff (ivs.zip elems) 0).mpr hall
          rw [hgo] at hc
          cases hc
    · have hb : (elems.length != ivs.length) = true := by
        simp [bne_iff_ne, h]
      simp [validate, tuple, hb, Result.isOk, h]
  · intro n m s c h
    cases h
  · intro ivs elems r h hf
    simp only [validate, tuple, h, bne_self_eq_false, Bool.false_eq_true, if_false] at hf
    cases hgo : tupleGo (ivs.zip elems) 0 with
    | completes u => rw [hgo] at hf; cases u; cases hf
    | yields rr =>
      rw [hgo] at hf
      simp only [genBind] at hf
      cases hf
      exact tupleGo_fail_shape (ivs.zip elems) 0 _ hgo

/-- Witness for C4: `tuple(string, number)` fails on a non-array, fails
on the empty array by arity, succeeds on `["a", 1]`, and wraps the
element failure on `[1, "a"]`. -/
theorem tuple_arity_spec_witness :
    validate (JSValue.vNum (.intVal 3)) (tuple [string, number]) =
      .fail (.msg "The value is not an array.") ∧
    validate (.vArr []) (tuple [string, number]) = .fail (.msg (lengthFailMsg 2 0)) ∧
    (validate (.vArr [.vStr "a", .vNum (.intVal 1)]) (tuple [string, number])).isOk = true ∧
    (∃ i c, Reason.withCause (elemFailMsg 0)
        (.msg "The value is not a string.") = .withCause (elemFailMsg i) c) :=
  ⟨tuple_arity_spec.1 [string, number] (JSValue.vNum (.intVal 3)) rfl,
    tuple_arity_spec.2.1 [string, number] [] (by decide),
    (tuple_arity_spec.2.2.1 [string, number] [.vStr "a", .vNum (.intVal 1)]).mpr
      ⟨rfl, by
        intro p hp
        rcases List.mem_cons.mp hp with rfl | hp'
        · rfl
        · rcases List.mem_cons.mp hp' with rfl | hp''
          · rfl
          · cases hp''⟩,
    tuple_arity_spec.2.2.2.2 [string, number] [.vNum (.intVal 1), .vStr "a"]
      (.withCause (elemFailMsg 0) (.msg "The value is not a string.")) rfl rfl⟩

/-- A successful `strictProp` always completes with the object it was
given. -/
theorem strictProp_completes_value (k : JSKey) (viv : IV JSValue JSValue)
    (opts : PropOptions) (obj v : JSValue)
    (h : strictProp k viv opts obj = .completes v) : v = obj := by
  unfold strictProp at h
  split at h
  · split at h
    · cases h; rfl
    · cases h
  · rename_i kk hkk
    cases hw : wrapError viv (propFailMsg kk) (getProp obj kk) with
    | yields r => rw [hw] at h; simp only [genBind] at h; cases h
    | completes w => rw [hw] at h; simp only [genBind] at h; cases h; rfl

/-- A successful `strictProps` always completes with the object it was
given. -/
theorem strictProps_completes_value (defs : List (JSKey × IV JSValue JSValue))
    (opts : PropsOptions) (obj v : JSValue)
    (h : strictProps defs opts obj = .completes v) : v = obj := by
  unfold strictProps at h
  cases hgo : strictPropsGo defs opts.toPropOptions obj with
  | yields r => rw [hgo] at h; simp only [genBind] at h; cases h
  | completes u =>
    cases u
    rw [hgo] at h
    simp only [genBind] at h
    split at h
    · cases h
    · cases h; rfl

/-- A result `ok v` of the driver comes from the generator completing
with `v`. -/
theorem validate_ok_completes {Req T : Type} (iv : IV Req T) (x : Req) (v : T)
    (h : validate x iv = .ok v) : iv x = .completes v := by
  unfold validate at h
  cases hx : iv x with
  | completes w => rw [hx] at h; cases h; rfl
  | yields e => rw [hx] at h; cases h

/-- A successful `arrayOf` always completes with the array it was
given. -/
theorem arrayOf_completes_value (iv : IV JSValue JSValue) :
    ∀ x v, arrayOf iv x = .completes v → v = x := by
  intro x v h
  unfold arrayOf at h
  split at h
  · rename_i elems
    cases hgo : arrayOfGo iv elems 0 with
    | yields r => rw [hgo] at h; simp only [genBind] at h; cases h
    | completes u => cases u; rw [hgo] at h; simp only [genBind] at h; cases h; rfl
  · cases h

/-- A successful `tuple` always completes with the array it was given. -/
theorem tuple_completes_value (ivs : List (IV JSValue JSValue)) :
    ∀ x v, tuple ivs x = .completes v → v = x := by
  intro x v h
  unfold tuple at h
  split at h
  · rename_i elems
    split at h
    · cases h
    · cases hgo : tupleGo (ivs.zip elems) 0 with
      | yields r => rw [hgo] at h; simp only [genBind] at h; cases h
      | completes u => cases u; rw [hgo] at h; simp only [genBind] at h; cases h; rfl
  · cases h

/-- Claim C8: on success, the built-in validators return the original
input value itself as the `Ok` value.  In particular `looseProp` performs
its property check on the boxed object `Object(x)` while returning the
original, possibly primitive, input, and `arrayOf` returns the very array
it was given. -/
theorem builtins_return_input :
    (∀ k viv opts x, validate x (looseProp k viv opts) =
      (match validate (jsObjectCoerce x) (strictProp k viv opts) with
       | .ok _ => Result.ok x
       | .fail r => Result.fail r)) ∧
    (∀ iv x v, validate x (arrayOf iv) = .ok v → v = x) ∧
    (∀ k viv opts x v, validate x (looseProp k viv opts) = .ok v → v = x) ∧
    (∀ x v, validate x object = .ok v → v = x) ∧
    (∀ x v, validate x string = .ok v → v = x) ∧
    (∀ x v, validate x number = .ok v → v = x) ∧
    (∀ c x v, validate x (equal c) = .ok v → v = x) ∧
    (∀ ivs x v, validate x (or ivs) = .ok v → v = x) ∧
    (∀ ivs x v, validate x (and ivs) = .ok v → v = x) ∧
    (∀ ivs x v, validate x (tuple ivs) = .ok v → v = x) ∧
    (∀ k viv opts x v, validate x (strictProp k viv opts) = .ok v → v = x) ∧
    (∀ defs opts x v, validate x (strictProps defs opts) = .ok v → v = x) := by
  refine ⟨?_, ?_, ?_, ?_, ?_, ?_, ?_, ?_, ?_, ?_, ?_, ?_⟩
  · intro k viv opts x
    cases h : strictProp k viv opts (jsObjectCoerce x) <;>
      simp [validate, looseProp, h, genBind]
  · intro iv x v h
    exact arrayOf_completes_value iv x v (validate_ok_completes _ x v h)
  · intro k viv opts x v h
    unfold validate looseProp at h
    cases hs : strictProp k viv opts (jsObjectCoerce x) with
    | yields r => rw [hs] at h; simp only [genBind] at h; cases h
    | completes w => rw [hs] at h; simp only [genBind] at h; cases h; rfl
  · intro x v h
    have h2 := validate_ok_completes _ x v h
    unfold object at h2
    split at h2
    · cases h2; rfl
    · cases h2
  · intro x v h
    have h2 := validate_ok_completes _ x v h
    unfold string at h2
    split at h2
    · cases h2
    · cases h2; rfl
  · intro x v h
    have h2 := validate_ok_completes _ x v h
    unfold number at h2
    split at h2
    · cases h2
    · cases h2; rfl
  · intro c x v h
    have h2 := validate_ok_completes _ x v h
    unfold equal at h2
    split at h2
    · cases h2
    · cases h2; rfl
  · intro ivs x v h
    unfold validate or at h
    cases hgo : orGo x ivs [] with
    | yields r => rw [hgo] at h; cases h
    | completes w =>
      rw [hgo] at h
      cases h
      exact (orGo_completes_iff ivs []).2 _ hgo
  · intro ivs x v h
    unfold validate and at h
    cases hgo : andGo x ivs with
    | yields r => rw [hgo] at h; cases h
    | completes w =>
      rw [hgo] at h
      cases h
      exact (andGo_completes_iff ivs).2 _ hgo
  · intro ivs x v h
    exact tuple_completes_value ivs x v (validate_ok_completes _ x v h)
  · intro k viv opts x v h
    unfold validate at h
    cases hs : strictProp k viv opts x with
    | yields r => rw [hs] at h; cases h
    | completes w =>
      rw [hs] at h
      cases h
      exact strictProp_completes_value k viv opts x _ hs
  · intro defs opts x v h
    unfold validate at h
    cases hs : strictProps defs opts x with
    | yields r => rw [hs] at h; cases h
    | completes w =>
      rw [hs] at h
      cases h
      exact strictProps_completes_value defs opts x _ hs

/-- Witness for C8: `looseProp('length', number)` on the primitive string
`"ab"` checks the boxed object yet returns the primitive, and
`arrayOf(string)` on `["a"]` returns the very array it was given. -/
theorem builtins_return_input_witness :
    (validate (JSValue.vStr "ab") (looseProp (JSKey.str "length") number {}) =
      (match validate (jsObjectCoerce (JSValue.vStr "ab"))
          (strictProp (JSKey.str "length") number {}) with
       | .ok _ => Result.ok (JSValue.vStr "ab")
       | .fail r => Result.fail r)) ∧
    JSValue.vArr [JSValue.vStr "a"] = JSValue.vArr [JSValue.vStr "a"] :=
  ⟨builtins_return_input.1 (JSKey.str "length") number {} (JSValue.vStr "ab"),
    builtins_return_input.2.1 string (JSValue.vArr [JSValue.vStr "a"])
      (JSValue.vArr [JSValue.vStr "a"]) rfl⟩

/-- Claim C5: `strictProps` defaults `allowExtra` to `true`; when
`allowExtra` is `false`, the presence of any own key of the input object
that is not among the definition keys causes failure, and the extra-key
report lists at most `EXTRA_ELLIPSIS_COUNT` key names plus one truncation
entry counting the rest; on the concrete example,
`strictProps({foo: string, bar: number}, {allowExtra: false})` succeeds
on `{foo: "", bar: 0}` and fails on `{foo: "", bar: 0, baz: true}`. -/
theorem strictProps_allowExtra_spec :
    (({} : PropsOptions).allowExtra = true) ∧
    (∀ defs opts obj, opts.allowExtra = false →
      (∃ k ∈ ownKeys obj, ((defs.map Prod.fst).contains k) = false) →
      (validate obj (strictProps defs opts)).isOk = false) ∧
    (∀ defs opts obj, opts.allowExtra = false →
      strictPropsGo defs opts.toPropOptions obj = .completes () →
      0 < ((ownKeys obj).filter (fun k => !((defs.map Prod.fst).contains k))).length →
      validate obj (strictProps defs opts) =
        .fail (.msg ("The object have extra properties: "
          ++ extraKeysDetails
            ((ownKeys obj).filter (fun k => !((defs.map Prod.fst).contains k)))))) ∧
    (∀ ks, (extraKeysParts ks).length =
      min EXTRA_ELLIPSIS_COUNT ks.length
        + (if EXTRA_ELLIPSIS_COUNT < ks.length then 1 else 0)) ∧
    (validate (JSValue.vObj [(JSKey.str "foo", JSValue.vStr ""), (JSKey.str "bar", JSValue.vNum (.intVal 0))])
        (strictProps [(JSKey.str "foo", string), (JSKey.str "bar", number)] { allowExtra := false }) =
      .ok (JSValue.vObj [(JSKey.str "foo", JSValue.vStr ""), (JSKey.str "bar", JSValue.vNum (.intVal 0))])) ∧
    ((validate
        (JSValue.vObj [(JSKey.str "foo", JSValue.vStr ""), (JSKey.str "bar", JSValue.vNum (.intVal 0)),
          (JSKey.str "baz", JSValue.vBool true)])
        (strictProps [(JSKey.str "foo", string), (JSKey.str "bar", number)]
          { allowExtra := false })).isOk = false) := by
  refine ⟨rfl, ?_, ?_, ?_, rfl, rfl⟩
  · intro defs opts obj h hex
    obtain ⟨k, hk, hc⟩ := hex
    have hmem : k ∈ (ownKeys obj).filter (fun k => !((defs.map Prod.fst).contains k)) :=
      List.mem_filter.mpr ⟨hk, by simp only [hc]; rfl⟩
    have hlen : 0 < ((ownKeys obj).filter (fun k => !((defs.map Prod.fst).contains k))).length :=
      List.length_pos.mpr (List.ne_nil_of_mem hmem)
    have hlen' := hlen
    simp at hlen'
    unfold validate strictProps
    cases hgo : strictPropsGo defs opts.toPropOptions obj with
    | yields r => simp [genBind, Result.isOk]
    | completes u =>
      cases u
      simp only [genBind]
      simp [h, hlen, hlen', Result.isOk]
  · intro defs opts obj h hgo hlen
    have hlen' := hlen
    simp at hlen'
    unfold validate strictProps
    rw [hgo]
    simp only [genBind]
    simp [h, hlen, hlen']
  · intro ks
    by_cases h5 : EXTRA_ELLIPSIS_COUNT < ks.length <;>
      simp [extraKeysParts, h5, List.length_take]

/-- Witness for C5: `strictProps({foo: string}, {allowExtra: false})`
fails on `{foo: "", baz: true}`, which has the extra own key `baz`. -/
theorem strictProps_allowExtra_spec_witness :
    (validate (JSValue.vObj [(JSKey.str "foo", JSValue.vStr ""), (JSKey.str "baz", JSValue.vBool true)])
      (strictProps [(JSKey.str "foo", string)] { allowExtra := false })).isOk = false :=
  strictProps_allowExtra_spec.2.1 [(JSKey.str "foo", string)] { allowExtra := false }
    (JSValue.vObj [(JSKey.str "foo", JSValue.vStr ""), (JSKey.str "baz", JSValue.vBool true)])
    rfl ⟨JSKey.str "baz", by decide, by decide⟩

end TypesafeGuard
